import Mathlib

/-!
Shallow embedding of the TVHeadend bouquet import pipeline from this
repository (tvhlst.py, tvh-bouquet-fixed.py, tvhlstfta.py).

Strings are modelled as lists of characters.  Python `re` substitutions and
searches are embedded as executable functions: each regular expression of the
source is compiled by hand into a matcher that, given the previous character
of the original text (for word boundaries) and the remaining text, returns
the matched span and the remainder; a generic engine replays Python's
leftmost, non-overlapping global substitution.  Case-insensitive matching
uses an explicit case table covering ASCII letters and the Polish letters
appearing in the source's genre word list.  External collaborators (HTTP
fetch, BeautifulSoup text extraction, the TVHeadend API, difflib's
similarity) enter as parameters or as already-extracted data, mirroring the
interface boundary of the specification.
-/

/-- Channel-name strings of the model: lists of characters. -/
abbrev Str := List Char

/-- Embed a Lean string literal into the model representation. -/
def str (s : String) : Str := s.data

/-- ASCII decimal digit, Python regex `\d` on the ASCII inputs handled here. -/
def isDigit (c : Char) : Bool := 48 ≤ c.toNat && c.toNat ≤ 57

/-- Case table: (uppercase, lowercase) pairs for ASCII letters and the Polish
letters used by the source's genre list.  Python's `str.lower`/`str.upper`
and `re.IGNORECASE` are modelled through this table. -/
def caseTable : List (Char × Char) :=
  [('A', 'a'), ('B', 'b'), ('C', 'c'), ('D', 'd'), ('E', 'e'), ('F', 'f'),
   ('G', 'g'), ('H', 'h'), ('I', 'i'), ('J', 'j'), ('K', 'k'), ('L', 'l'),
   ('M', 'm'), ('N', 'n'), ('O', 'o'), ('P', 'p'), ('Q', 'q'), ('R', 'r'),
   ('S', 's'), ('T', 't'), ('U', 'u'), ('V', 'v'), ('W', 'w'), ('X', 'x'),
   ('Y', 'y'), ('Z', 'z'), ('Ą', 'ą'), ('Ć', 'ć'), ('Ę', 'ę'), ('Ł', 'ł'),
   ('Ń', 'ń'), ('Ó', 'ó'), ('Ś', 'ś'), ('Ź', 'ź'), ('Ż', 'ż')]

/-- Lower-case a character (Python `str.lower` restricted to the model's
alphabet; other characters are fixed points). -/
def pyLower (c : Char) : Char :=
  match caseTable.find? (fun p => p.1 == c) with
  | some p => p.2
  | none => c

/-- Upper-case a character (Python `str.upper` on the model's alphabet). -/
def pyUpper (c : Char) : Char :=
  match caseTable.find? (fun p => p.2 == c) with
  | some p => p.1
  | none => c

/-- Word character for Python regex `\b`/`\w`: alphanumeric or underscore;
the model includes the Polish letters of the case table as letters. -/
def isWordChar (c : Char) : Bool :=
  isDigit c || (65 ≤ c.toNat && c.toNat ≤ 90) || (97 ≤ c.toNat && c.toNat ≤ 122) ||
    c == '_' || caseTable.any (fun p => p.1 == c || p.2 == c)

/-- Whitespace for Python regex `\s` and `str.strip` (ASCII fragment). -/
def isSpace (c : Char) : Bool :=
  c == ' ' || c == '\t' || c == '\n' || c == '\x0b' || c == '\x0c' || c == '\r'

/-- Word-character test lifted to an optional character (none = text edge). -/
def isWordOpt : Option Char → Bool
  | none => false
  | some c => isWordChar c

/-- Word boundary `\b` between two adjacent positions. -/
def isBdry (l r : Option Char) : Bool := isWordOpt l != isWordOpt r

/-- Lower-case a whole string. -/
def lowerStr (s : Str) : Str := s.map pyLower

/-- Substring test, Python's `pat in text`. -/
def hasSub (pat : Str) : Str → Bool
  | [] => pat.isEmpty
  | c :: cs => List.isPrefixOf pat (c :: cs) || hasSub pat cs

/-- Case-insensitive literal match at the head of the text: returns the
actually matched characters and the remainder. -/
def takeCI : Str → Str → Option (Str × Str)
  | [], cs => some ([], cs)
  | _ :: _, [] => none
  | a :: as, c :: cs =>
    if pyLower c = pyLower a then
      match takeCI as cs with
      | some (m, r) => some (c :: m, r)
      | none => none
    else none

/-- Word-bounded alternation `\b(a1|a2|...)\b` (case-insensitive) matched at
the current position; alternatives are tried in the pattern's order, exactly
as Python's regex alternation with backtracking does. -/
def tokenAt (alts : List Str) (prev : Option Char) (cs : Str) : Option (Str × Str) :=
  match alts with
  | [] => none
  | a :: rest =>
    match takeCI a cs with
    | some (m, r) =>
      if isBdry prev cs.head? && isBdry m.getLast? r.head? then some (m, r)
      else tokenAt rest prev cs
    | none => tokenAt rest prev cs

/-- Python `re.search`: scan left to right, at each position try the matcher;
return the first match's text. -/
def searchM (m : Option Char → Str → Option (Str × Str)) : Option Char → Str → Option Str
  | _, [] => none
  | prev, c :: cs =>
    match m prev (c :: cs) with
    | some (mt, _) => some mt
    | none => searchM m (some c) cs

/-- Python `re.sub` (global, leftmost, non-overlapping): fuel-indexed loop.
The matcher receives the character preceding the current scan position in
the original text (so word boundaries are judged on the original, as Python
does) and must consume at least one character when it matches. -/
def gsubGo (m : Option Char → Str → Option (Str × Str)) (repl : Str) :
    Nat → Option Char → Str → Str
  | 0, _, cs => cs
  | _ + 1, _, [] => []
  | fuel + 1, prev, c :: cs =>
    match m prev (c :: cs) with
    | some (mt, rest) => repl ++ gsubGo m repl fuel (mt.getLast?.elim prev some) rest
    | none => c :: gsubGo m repl fuel (some c) cs

/-- Entry point of the substitution engine. -/
def gsub (m : Option Char → Str → Option (Str × Str)) (repl : Str) (cs : Str) : Str :=
  gsubGo m repl (cs.length + 1) none cs

/-- Optional single digit, regex `\d?` (greedy). -/
def takeOptDigit : Str → Str × Str
  | c :: r => if isDigit c then ([c], r) else ([], c :: r)
  | [] => ([], [])

/-- Optional `/\w+` group (greedy); returns the consumed span (possibly empty). -/
def takeSlashWord : Str → Str × Str
  | '/' :: r =>
    match r.span isWordChar with
    | ([], _) => ([], '/' :: r)
    | (w, r2) => ('/' :: w, r2)
  | cs => ([], cs)

/-- Core of the modulation token `dvb-[st]\d?(?:/\w+)?|db-s\d?/\w+`
(case-insensitive), matched at the head.  Returns the matched text, the
remainder, and whether the match ended with a `/\w+` group (needed for the
trailing-`\b` variant of the pattern). -/
def dvbCore (cs : Str) : Option (Str × Str × Bool) :=
  match takeCI (str "dvb-") cs with
  | some (m1, r1) =>
    match r1 with
    | c :: r2 =>
      if pyLower c = 's' || pyLower c = 't' then
        let (d, r3) := takeOptDigit r2
        let (sw, r4) := takeSlashWord r3
        some (m1 ++ [c] ++ d ++ sw, r4, !sw.isEmpty)
      else none
    | [] => none
  | none =>
    match takeCI (str "db-s") cs with
    | some (m1, r1) =>
      let (d, r2) := takeOptDigit r1
      match takeSlashWord r2 with
      | ([], _) => none
      | (sw, r3) => some (m1 ++ d ++ sw, r3, true)
    | none => none

/-- Matcher for `\s*(dvb-[st]\d?(?:/\w+)?|db-s\d?/\w+)\s*` (the clean
functions' modulation removal, no word boundaries). -/
def dvbSpaceMatch (_prev : Option Char) (cs : Str) : Option (Str × Str) :=
  let (sp1, r1) := cs.span isSpace
  match dvbCore r1 with
  | some (tok, r2, _) =>
    let (sp2, r3) := r2.span isSpace
    some (sp1 ++ tok ++ sp2, r3)
  | none => none

/-- Matcher for `\b(dvb-[st]\d?(?:/\w+)?|db-s\d?/\w+)\b` (the fixed variant's
normalisation).  When the token does not end in a `/\w+` group the trailing
boundary must be checked; regex backtracking over `\d?` cannot produce a
match the greedy parse misses, because the character before the boundary
would itself be a word character. -/
def dvbBoundedMatch (prev : Option Char) (cs : Str) : Option (Str × Str) :=
  match dvbCore cs with
  | some (tok, r, endsSW) =>
    if isBdry prev cs.head? && (endsSW || !isWordOpt r.head?) then some (tok, r)
    else none
  | none => none

/-- Matcher for `\s*\b(alts)\b\s*` (quality removal in the clean functions;
replacement is a single space there). -/
def qualSpaceMatch (alts : List Str) (prev : Option Char) (cs : Str) : Option (Str × Str) :=
  let (sp1, r1) := cs.span isSpace
  let prev1 := sp1.getLast?.elim prev some
  match tokenAt alts prev1 r1 with
  | some (m, r2) =>
    let (sp2, r3) := r2.span isSpace
    some (sp1 ++ m ++ sp2, r3)
  | none => none

/-- Dot-or-comma class `[.,]` of the frequency pattern. -/
def isSepDot (c : Char) : Bool := c == '.' || c == ','

/-- Exactly three digits, regex `\d{3}`. -/
def take3Digits : Str → Option (Str × Str)
  | a :: b :: c :: r =>
    if isDigit a && isDigit b && isDigit c then some ([a, b, c], r) else none
  | _ => none

/-- Matcher for the frequency pattern `\d{1,2}[.,]\d{3}` (greedy two digits
first, then the one-digit backtrack, as the regex engine would). -/
def freqMatch (_prev : Option Char) : Str → Option (Str × Str)
  | a :: b :: c :: rest =>
    if isDigit a && isDigit b && isSepDot c then
      (take3Digits rest).map (fun p => (a :: b :: c :: p.1, p.2))
    else if isDigit a && isSepDot b then
      (take3Digits (c :: rest)).map (fun p => (a :: b :: p.1, p.2))
    else none
  | _ => none

/-- Matcher for the polarisation pattern `\b([VHLR])\b` (case-sensitive). -/
def polMatch (prev : Option Char) : Str → Option (Str × Str)
  | c :: cs =>
    if (c == 'V' || c == 'H' || c == 'L' || c == 'R') &&
        isBdry prev (some c) && isBdry (some c) cs.head? then
      some ([c], cs)
    else none
  | [] => none

/-- Matcher for the symbol-rate pattern `\b(\d{5})\b`. -/
def srMatch (prev : Option Char) : Str → Option (Str × Str)
  | a :: b :: c :: d :: e :: r =>
    if isDigit a && isDigit b && isDigit c && isDigit d && isDigit e &&
        isBdry prev (some a) && !isWordOpt r.head? then
      some ([a, b, c, d, e], r)
    else none
  | _ => none

/-- Matcher for the FEC pattern `\d/\d`. -/
def fecMatch (_prev : Option Char) : Str → Option (Str × Str)
  | a :: b :: c :: r =>
    if isDigit a && b == '/' && isDigit c then some ([a, b, c], r) else none
  | _ => none

/-- Matcher for `\bs\d/\w+\b` (case-insensitive); the trailing boundary holds
automatically after a maximal `\w+`. -/
def sSlashMatch (prev : Option Char) : Str → Option (Str × Str)
  | s :: d :: sl :: r =>
    if pyLower s = 's' && isDigit d && sl == '/' && isBdry prev (some s) then
      match r.span isWordChar with
      | ([], _) => none
      | (w, r2) => some (s :: d :: sl :: w, r2)
    else none
  | _ => none

/-- Strip the anchored suffix `\s+D\s+D\s*$` (one global substitution); the
marker character is a parameter because the fixed variant's normalisation
runs the same pattern on lower-cased text. -/
def stripDDTail (d : Char) (cs : Str) : Str :=
  match (cs.reverse.dropWhile isSpace : Str) with
  | c1 :: r2 =>
    if c1 == d then
      match r2.span isSpace with
      | (_ :: _, c2 :: r4) =>
        if c2 == d then
          match r4.span isSpace with
          | (_ :: _, r5) => r5.reverse
          | ([], _) => cs
        else cs
      | (_, _) => cs
    else cs
  | [] => cs

/-- Strip the anchored suffix `\s+D\s*$`. -/
def stripDTail (d : Char) (cs : Str) : Str :=
  match (cs.reverse.dropWhile isSpace : Str) with
  | c1 :: r2 =>
    if c1 == d then
      match r2.span isSpace with
      | (_ :: _, r3) => r3.reverse
      | ([], _) => cs
    else cs
  | [] => cs

/-- Strip the anchored suffix `\s*[signs]\s*$`. -/
def stripSignTail (signs : List Char) (cs : Str) : Str :=
  match (cs.reverse.dropWhile isSpace : Str) with
  | c :: r => if signs.contains c then (r.dropWhile isSpace).reverse else cs
  | [] => cs

/-- Collapse whitespace runs to single spaces, regex `\s+` replaced by a
space; the flag records whether the scan is inside a run already emitted. -/
def collapseWsGo : Bool → Str → Str
  | _, [] => []
  | inRun, c :: cs =>
    if isSpace c then
      if inRun then collapseWsGo true cs else ' ' :: collapseWsGo true cs
    else c :: collapseWsGo false cs

/-- Collapse whitespace runs to single spaces. -/
def collapseWs (cs : Str) : Str := collapseWsGo false cs

/-- Python `str.strip`. -/
def pyStrip (cs : Str) : Str :=
  ((cs.dropWhile isSpace).reverse.dropWhile isSpace).reverse

/-- Quality tokens of `\b(HD|SD|UHD|4K|UD)\b`, in the pattern's alternation
order. -/
def qualTokens : List Str := [str "HD", str "SD", str "UHD", str "4K", str "UD"]

/-- Quality tokens of the fixed variant's clean function, `\b(HD|SD|UHD|4K)\b`
(no UD). -/
def qualTokens4 : List Str := [str "HD", str "SD", str "UHD", str "4K"]

/-- Genre words removed by tvhlst.py's clean_channel_name, in alternation
order. -/
def genreTokensLst : List Str :=
  [str "muzyczny", str "informacyjny", str "uniwersalny", str "filmowy",
   str "sportowy", str "religijny", str "dokumentalny", str "rozrywkowy",
   str "dla dzieci", str "telezakupowy", str "prawniczy", str "kulinarny",
   str "motoryzacyjny", str "erotyczny", str "turystyczny", str "lifestyle",
   str "dla młodzieży"]

/-- Genre words of tvhlstfta.py's clean_channel_name (same list without the
final youth entry). -/
def genreTokensFta : List Str :=
  [str "muzyczny", str "informacyjny", str "uniwersalny", str "filmowy",
   str "sportowy", str "religijny", str "dokumentalny", str "rozrywkowy",
   str "dla dzieci", str "telezakupowy", str "prawniczy", str "kulinarny",
   str "motoryzacyjny", str "erotyczny", str "turystyczny", str "lifestyle"]

/-- BouquetParser.normalize_channel_name of tvhlst.py: lower-case, keep only
letters a-z and digits. -/
def normalizeLst (name : Str) : Str :=
  if name = [] then []
  else (lowerStr name).filter (fun c => (97 ≤ c.toNat && c.toNat ≤ 122) || isDigit c)

/-- BouquetParser.normalize_channel_name of tvhlstfta.py: lower-case, keep
only letters a-z. -/
def normalizeFta (name : Str) : Str :=
  if name = [] then []
  else (lowerStr name).filter (fun c => 97 ≤ c.toNat && c.toNat ≤ 122)

/-- BouquetParser.normalize_channel_name of tvh-bouquet-fixed.py: lower-case;
drop quality tokens and word-bounded modulation tokens; strip trailing
lower-case d-markers; collapse whitespace and strip; finally drop every
character that is not word, space, plus or minus. -/
def normalizeFixed (name : Str) : Str :=
  if name = [] then []
  else
    let n1 := lowerStr name
    let n2 := gsub (fun p cs => tokenAt qualTokens p cs) [] n1
    let n3 := gsub dvbBoundedMatch [] n2
    let n4 := stripDDTail 'd' n3
    let n5 := stripDTail 'd' n4
    let n6 := pyStrip (collapseWs n5)
    n6.filter (fun c => isWordChar c || isSpace c || c == '+' || c == '-')

/-- Shared body of clean_channel_name of tvhlst.py and tvhlstfta.py (they
differ only in the genre list): genre removal, modulation removal, quality
removal (replaced by a space), frequency, polarisation, symbol rate, FEC and
s-slash removal, trailing D-marker and sign stripping, whitespace collapse
and strip. -/
def cleanCore (genres : List Str) (name : Str) : Str :=
  if name = [] then []
  else
    let c1 := gsub (fun p cs => tokenAt genres p cs) [] name
    let c2 := gsub dvbSpaceMatch [] c1
    let c3 := gsub (qualSpaceMatch qualTokens) [' '] c2
    let c4 := gsub freqMatch [] c3
    let c5 := gsub polMatch [] c4
    let c6 := gsub srMatch [] c5
    let c7 := gsub fecMatch [] c6
    let c8 := gsub sSlashMatch [] c7
    let c9 := stripDDTail 'D' c8
    let c10 := stripDTail 'D' c9
    let c11 := stripSignTail ['-', '+'] c10
    pyStrip (collapseWs c11)

/-- BouquetParser.clean_channel_name of tvhlst.py. -/
def cleanLst (name : Str) : Str := cleanCore genreTokensLst name

/-- BouquetParser.clean_channel_name of tvhlstfta.py. -/
def cleanFta (name : Str) : Str := cleanCore genreTokensFta name

/-- BouquetParser.clean_channel_name of tvh-bouquet-fixed.py: modulation
removal, trailing D-marker and minus stripping, whitespace collapse; then if
a quality token (HD/SD/UHD/4K) occurs, remove it from its position and
re-append it upper-cased as the final token. -/
def cleanFixed (name : Str) : Str :=
  if name = [] then []
  else
    let c1 := gsub dvbSpaceMatch [] name
    let c2 := stripDDTail 'D' c1
    let c3 := stripDTail 'D' c2
    let c4 := stripSignTail ['-'] c3
    let c5 := pyStrip (collapseWs c4)
    match searchM (fun p cs => tokenAt qualTokens4 p cs) none c5 with
    | some q =>
      let stripped := pyStrip (gsub (qualSpaceMatch qualTokens4) [' '] c5)
      stripped ++ [' '] ++ q.map pyUpper
    | none => c5

/-- One parsed channel entry.  parse_channel_info fills the textual fields;
number and category are assigned later by the surrounding parsing loop and
default to 0 and the empty string until then, mirroring the Python dict's
lifecycle. -/
structure Entry where
  name : Str := []
  fullText : Str := []
  quality : Str := []
  frequency : Str := []
  polarization : Str := []
  symbolRate : Str := []
  fec : Str := []
  modulation : Str := []
  number : Nat := 0
  category : Str := []
deriving DecidableEq, Repr

/-- Leading ordinal prefix strip, regex `^\d+\.?\s*` (applies only when the
text starts with a digit). -/
def stripOrdinal (t : Str) : Str :=
  match t.span isDigit with
  | ([], _) => t
  | (_ :: _, rest) =>
    match rest with
    | '.' :: r => r.dropWhile isSpace
    | r => r.dropWhile isSpace

/-- Plain (unanchored, boundary-free) search wrapper for the modulation
token. -/
def dvbPlainMatch (_prev : Option Char) (cs : Str) : Option (Str × Str) :=
  (dvbCore cs).map (fun t => (t.1, t.2.1))

/-- BouquetParser.parse_channel_info of tvhlst.py: strip the ordinal, reject
texts shorter than two characters, then extract frequency (from the separate
frequency-column text when that is non-empty, otherwise from the row text),
polarisation, symbol rate, FEC, modulation and quality, and clean the name. -/
def parseChannelInfoLst (text0 freqText : Str) : Option Entry :=
  let text := stripOrdinal text0
  if text = [] || text.length < 2 then none
  else
    some
      { name := cleanLst text
        fullText := text
        quality := ((searchM (fun p cs => tokenAt qualTokens p cs) none text).map
          (fun m => m.map pyUpper)).getD []
        frequency :=
          if freqText ≠ [] then (searchM freqMatch none freqText).getD []
          else (searchM freqMatch none text).getD []
        polarization := (searchM polMatch none text).getD []
        symbolRate := (searchM srMatch none text).getD []
        fec := (searchM fecMatch none text).getD []
        modulation := (searchM dvbPlainMatch none text).getD [] }

/-- BouquetParser.parse_channel_info of tvh-bouquet-fixed.py (no separate
frequency column; the clean function is the fixed variant's). -/
def parseChannelInfoFixed (text0 : Str) : Option Entry :=
  let text := stripOrdinal text0
  if text = [] || text.length < 2 then none
  else
    some
      { name := cleanFixed text
        fullText := text
        quality := ((searchM (fun p cs => tokenAt qualTokens p cs) none text).map
          (fun m => m.map pyUpper)).getD []
        frequency := (searchM freqMatch none text).getD []
        polarization := (searchM polMatch none text).getD []
        symbolRate := (searchM srMatch none text).getD []
        fec := (searchM fecMatch none text).getD []
        modulation := (searchM dvbPlainMatch none text).getD [] }

/-- Digits to a natural number. -/
def digsToNat (ds : Str) : Nat := ds.foldl (fun n c => 10 * n + (c.toNat - 48)) 0

/-- Python `float()` on the plain decimal strings handled by the pipeline:
optional surrounding whitespace, optional sign, integer digits, optional dot
and fraction digits, at least one digit overall.  The stdlib also accepts
exponent and infinity forms, which no pipeline input uses.  The result pair
(n, k) denotes the exact rational value n / 10^k; the binary floating-point
rounding of the source is value-preserving for the conversions proved below
(checked against the double computation). -/
def pyFloatParse (s0 : Str) : Option (ℤ × Nat) :=
  let s1 := pyStrip s0
  let (neg, s2) : Bool × Str :=
    match s1 with
    | '-' :: r => (true, r)
    | '+' :: r => (false, r)
    | r => (false, r)
  let (ip, s3) := s2.span isDigit
  let (fp, s4) : Str × Str :=
    match s3 with
    | '.' :: r => r.span isDigit
    | r => ([], r)
  if s4 = [] ∧ (ip ≠ [] ∨ fp ≠ []) then
    let n : ℤ := (digsToNat ip * 10 ^ fp.length + digsToNat fp : ℕ)
    some (if neg then -n else n, fp.length)
  else none

/-- ImportWorker.get_freq_mhz_from_str of tvhlst.py: empty string gives 0;
comma becomes a decimal dot; values below 1000 are read as GHz and scaled to
MHz; parse failures give 0.  Python's `int()` truncates toward zero, which
on the exact value n / 10^k is t-division by the power of ten. -/
def getFreqMhzFromStr (s : Str) : ℤ :=
  if s = [] then 0
  else
    let s2 := s.map (fun c => if c == ',' then '.' else c)
    match pyFloatParse s2 with
    | some v =>
      if v.1 < 1000 * (10 ^ v.2 : ℕ) then Int.tdiv (v.1 * 1000) ((10 ^ v.2 : ℕ))
      else Int.tdiv v.1 ((10 ^ v.2 : ℕ))
    | none => 0

/-- A TVHeadend service record as read from the service grid (fields used by
the pipeline; multiplex_uuid may be absent). -/
structure Service where
  uuid : Str
  svcname : Str := []
  muxUuid : Option Str := none
deriving DecidableEq, Repr

/-- A cached TVHeadend channel record (uuid, backing services, tag list). -/
structure Channel where
  uuid : Str
  services : List Str := []
  tags : List Str := []
deriving DecidableEq, Repr

/-- A TVHeadend tag record. -/
structure TagRec where
  name : Str
  uuid : Str
deriving DecidableEq, Repr

/-- One externally visible catalog mutation issued by an import run.  Update
actions also record which matched service led to them (the channel is the
one backing that service), so the consumption invariant can be stated
uniformly. -/
inductive ImportAction where
  | createTag (name : Str) (uuid : Str) (index : Nat)
  | createChannel (serviceUuid : Str) (name : Str) (tags : List Str) (number : Nat)
  | updateChannel (serviceUuid : Str) (channelUuid : Str) (tags : List Str)
      (number : Nat) (name : Str)
deriving DecidableEq, Repr

/-- Association-list lookup (Python dict read; first binding wins, and the
update helpers below keep keys unique as dicts do). -/
def alookupK {κ α : Type} [DecidableEq κ] : List (κ × α) → κ → Option α
  | [], _ => none
  | (k2, v) :: rest, k => if k2 = k then some v else alookupK rest k

/-- Association-list write (Python dict assignment: overwrite in place,
append new keys in insertion order). -/
def upsertA {κ α : Type} [DecidableEq κ] : List (κ × α) → κ → α → List (κ × α)
  | [], k, v => [(k, v)]
  | (k2, v2) :: rest, k, v =>
    if k2 = k then (k, v) :: rest else (k2, v2) :: upsertA rest k v

/-- Set insertion used for processed_services. -/
def pushNewStr (l : List Str) (s : Str) : List Str := if s ∈ l then l else l ++ [s]

/-- Flatten bouquets into (category, entry) pairs in Python's dict-iteration
order. -/
def flattenB (bs : List (Str × List Entry)) : List (Str × Entry) :=
  (bs.map (fun p => p.2.map (fun e => (p.1, e)))).flatten

/-- Global deduplication of ImportWorker.run (tvh-bouquet-fixed.py, lines
302-313): walk all categories' entries in order, keep the first entry for
each non-empty normalised key and renumber survivors 1, 2, 3, ...  The
accumulator is the unique_channels dict in insertion order. -/
def dedupCore : List (Str × Entry) → List (Str × Entry) → Nat → List (Str × Entry)
  | [], acc, _ => acc
  | (cat, ch) :: rest, acc, n =>
    let norm := normalizeFixed ch.name
    if norm ≠ [] ∧ ∀ p ∈ acc, p.1 ≠ norm then
      dedupCore rest (acc ++ [(norm, { ch with number := n, category := cat })]) (n + 1)
    else dedupCore rest acc n

/-- The unique_channels mapping (key, surviving entry) in first-seen order. -/
def uniqueChannels (bs : List (Str × List Entry)) : List (Str × Entry) :=
  dedupCore (flattenB bs) [] 1

/-- Append an entry to its category's group, creating the group at the end
on first use (Python dict setdefault plus append). -/
def addToGroup (bs : List (Str × List Entry)) (cat : Str) (e : Entry) :
    List (Str × List Entry) :=
  match bs with
  | [] => [(cat, [e])]
  | (c, l) :: rest =>
    if c = cat then (c, l ++ [e]) :: rest else (c, l) :: addToGroup rest cat e

/-- The regrouped new_bouquets of the deduplication phase (lines 315-319). -/
def dedupGlobal (bs : List (Str × List Entry)) : List (Str × List Entry) :=
  (uniqueChannels bs).foldl (fun acc p => addToGroup acc p.2.category p.2) []

/-- State threaded through an import run: emitted actions, consumed-service
set, the tag name-to-uuid dict, the running tag creation index, and the
cached channel snapshot (whose records Python aliases and can mutate in
place; the store models object identity by position). -/
structure RunState where
  actions : List ImportAction := []
  processedServices : List Str := []
  existingTags : List (Str × Str) := []
  tagIndex : Nat := 0
  store : List Channel := []
deriving Repr

/-- channels_by_service: every service uuid of every cached channel points at
that channel (later channels overwrite earlier ones for a shared service);
the value is the channel's position in the store, standing for the shared
dict object. -/
def channelsByService (chs : List Channel) : List (Str × Nat) :=
  chs.enum.foldl
    (fun m p => p.2.services.foldl (fun m2 svc => upsertA m2 svc p.1) m) []

/-- Tag resolution per category (identical in tvhlst.py and
tvh-bouquet-fixed.py): reuse an existing tag by exact name, otherwise call
the external create_tag — its returned uuid is supplied by the mkTagUuid
parameter — record it and advance the creation index. -/
def resolveTag (createTags : Bool) (mkTagUuid : Str → Nat → Str) (st : RunState)
    (cat : Str) : Option Str × RunState :=
  if createTags then
    match alookupK st.existingTags cat with
    | some t => (some t, st)
    | none =>
      let t := mkTagUuid cat st.tagIndex
      (some t,
        { st with
          actions := st.actions ++ [.createTag cat t st.tagIndex]
          existingTags := st.existingTags ++ [(cat, t)]
          tagIndex := st.tagIndex + 1 })
  else (none, st)

/-- Configuration of the fuzzy-matching run (tvh-bouquet-fixed.py).  The
score function is difflib's SequenceMatcher ratio, an external collaborator
supplied as a parameter; its ordered codomain is likewise a parameter, so
the matching logic is stated for any faithful representation of the ratio
scale (the concrete fixtures below use integer hundredths). -/
structure FixedCfg (σ : Type) where
  score : Str → Str → σ
  threshold : σ
  createTags : Bool
  mkTagUuid : Str → Nat → Str

/-- services_map of the fixed run: normalised service name to service,
later services overwriting earlier ones on equal keys (plain dict
assignment, lines 327-332). -/
def servicesMapFixed (services : List Service) : List (Str × Service) :=
  services.foldl
    (fun m s => if s.svcname ≠ [] then upsertA m (normalizeFixed s.svcname) s else m) []

/-- The four variant strings scored for one entry (lines 365). -/
def variantsOf (norm : Str) : List Str :=
  [norm, norm.filter (fun c => !(c == ' ')),
   (norm.map (fun c => if c == '+' then str " plus" else [c])).flatten,
   norm.filter (fun c => !(c == '+'))]

/-- Candidate scoring of the fixed run (lines 363-373): walk the service
map, skipping entries whose KEY is in processed_services (the source
compares the normalised name against a set that holds service uuids), score
every variant, keep the first strict maximum. -/
def bestMatchFixed {σ : Type} [LinearOrder σ] [Zero σ] (score : Str → Str → σ)
    (smap : List (Str × Service)) (processed : List Str) (variants : List Str) :
    Option Service × σ :=
  smap.foldl
    (fun acc p =>
      if p.1 ∈ processed then acc
      else variants.foldl
        (fun (b : Option Service × σ) v =>
          let sc := score v p.1
          if sc > b.2 then (some p.2, sc) else b) acc)
    (none, 0)

/-- Per-entry step of the fixed run (lines 358-390): accept the best match
at or above the threshold, mark its uuid consumed, then update the channel
backing the service (appending the category tag to the cached record in
place when missing) or create a channel from the service. -/
def entryStepFixed {σ : Type} [LinearOrder σ] [Zero σ] (cfg : FixedCfg σ)
    (smap : List (Str × Service))
    (cbs : List (Str × Nat)) (tagUuid : Option Str) (st : RunState) (e : Entry) :
    RunState :=
  let normSearch := normalizeFixed e.name
  let best := bestMatchFixed cfg.score smap st.processedServices (variantsOf normSearch)
  match best.1 with
  | some svc =>
    if best.2 ≥ cfg.threshold then
      let st1 := { st with processedServices := pushNewStr st.processedServices svc.uuid }
      match alookupK cbs svc.uuid with
      | some idx =>
        match st1.store[idx]? with
        | some ch =>
          let tags2 := match tagUuid with
            | some t => if t ∈ ch.tags then ch.tags else ch.tags ++ [t]
            | none => ch.tags
          { st1 with
            store := st1.store.set idx { ch with tags := tags2 }
            actions := st1.actions ++
              [.updateChannel svc.uuid ch.uuid tags2 e.number e.name] }
        | none => st1
      | none =>
        let tags2 := match tagUuid with | some t => [t] | none => []
        { st1 with
          actions := st1.actions ++ [.createChannel svc.uuid e.name tags2 e.number] }
    else st
  | none => st

/-- ImportWorker.run of tvh-bouquet-fixed.py: global deduplication and
renumbering, then the fuzzy match loop over the regrouped bouquets. -/
def runFixed {σ : Type} [LinearOrder σ] [Zero σ] (cfg : FixedCfg σ)
    (bouquets : List (Str × List Entry))
    (services : List Service) (channels : List Channel) (tags0 : List TagRec) :
    RunState :=
  let deduped := dedupGlobal bouquets
  let smap := servicesMapFixed services
  let cbs := channelsByService channels
  let st0 : RunState :=
    { existingTags := tags0.foldl (fun m t => upsertA m t.name t.uuid) []
      store := channels }
  deduped.foldl
    (fun st p =>
      let rt := resolveTag cfg.createTags cfg.mkTagUuid st p.1
      p.2.foldl (entryStepFixed cfg smap cbs rt.1) rt.2) st0

/-- Configuration of the frequency-qualified run (tvhlst.py). -/
structure LstCfg where
  useServiceNames : Bool
  createTags : Bool
  mkTagUuid : Str → Nat → Str

/-- services_map of tvhlst.py (lines 434-452): composite key of normalised
name and frequency in whole MHz (multiplex frequency divided by 1000,
truncating; missing or zero gives 0), first service per key wins. -/
def servicesMapLst (muxes : List (Str × Nat)) (services : List Service) :
    List ((Str × ℤ) × Service) :=
  services.foldl
    (fun m s =>
      if s.svcname = [] then m
      else
        let key := normalizeLst s.svcname
        let freqKhz : Nat := (s.muxUuid.bind (fun u => alookupK muxes u)).getD 0
        let freqMhz : ℤ := if 0 < freqKhz then ((freqKhz / 1000 : Nat) : ℤ) else 0
        let mk := (key, freqMhz)
        if (alookupK m mk).isSome then m else m ++ [(mk, s)]) []

/-- Per-entry step of the tvhlst run (lines 486-567): empty keys are
skipped; an exact composite-key hit on an unconsumed service is consumed and
leads to an update (appending the category tag to the cached channel record
in place when missing) or a create; consumed services and misses are
skipped. -/
def entryStepLst (cfg : LstCfg) (smap : List ((Str × ℤ) × Service))
    (cbs : List (Str × Nat)) (tagUuid : Option Str) (st : RunState) (e : Entry) :
    RunState :=
  let mappingKey := normalizeLst e.name
  let remoteFreq := getFreqMhzFromStr e.frequency
  if mappingKey = [] then st
  else
    match alookupK smap (mappingKey, remoteFreq) with
    | some svc =>
      if svc.uuid ∈ st.processedServices then st
      else
        let st1 := { st with processedServices := st.processedServices ++ [svc.uuid] }
        let finalName := if cfg.useServiceNames then cleanLst svc.svcname else cleanLst e.name
        match alookupK cbs svc.uuid with
        | some idx =>
          match st1.store[idx]? with
          | some ch =>
            let tags2 := match tagUuid with
              | some t => if t ∈ ch.tags then ch.tags else ch.tags ++ [t]
              | none => ch.tags
            { st1 with
              store := st1.store.set idx { ch with tags := tags2 }
              actions := st1.actions ++
                [.updateChannel svc.uuid ch.uuid tags2 e.number finalName] }
          | none => st1
        | none =>
          let tags2 := match tagUuid with | some t => [t] | none => []
          { st1 with
            actions := st1.actions ++ [.createChannel svc.uuid finalName tags2 e.number] }
    | none => st

/-- ImportWorker.run of tvhlst.py over the already-fetched snapshots. -/
def runLst (cfg : LstCfg) (bouquets : List (Str × List Entry))
    (services : List Service) (muxes : List (Str × Nat)) (channels : List Channel)
    (tags0 : List TagRec) : RunState :=
  let smap := servicesMapLst muxes services
  let cbs := channelsByService channels
  let st0 : RunState :=
    { existingTags := tags0.foldl (fun m t => upsertA m t.name t.uuid) []
      store := channels }
  bouquets.foldl
    (fun st p =>
      let rt := resolveTag cfg.createTags cfg.mkTagUuid st p.1
      p.2.foldl (entryStepLst cfg smap cbs rt.1) rt.2) st0

/-- An absolute URL, as produced by the external urljoin/urlparse pair. -/
structure Url where
  scheme : Str
  netloc : Str
  path : Str
  query : Str := []
deriving DecidableEq, Repr

/-- A hyperlink of a fetched page: the raw href attribute (checked for the
pagination marker) and its urljoin-resolved absolute target. -/
structure Link where
  href : Str
  target : Url
deriving DecidableEq, Repr

/-- A table cell after BeautifulSoup text extraction: whether the td/th
carries a colspan attribute, and its stripped text. -/
structure Cell where
  colspan : Bool := false
  text : Str := []
deriving DecidableEq, Repr

/-- A table row. -/
structure Row where
  cells : List Cell
deriving DecidableEq, Repr

/-- A table. -/
structure Table where
  rows : List Row
deriving DecidableEq, Repr

/-- A fetched document: its links and its tables in document order. -/
structure Page where
  links : List Link := []
  tables : List Table := []
deriving DecidableEq, Repr

/-- Python `s.rsplit('.', 1)[0]` guarded by a dot test: drop everything from
the last dot on, or return the string unchanged when it has no dot. -/
def stripAfterLastDot (p : Str) : Str :=
  match (p.reverse.dropWhile (fun c => c != '.') : Str) with
  | '.' :: r => r.reverse
  | _ => p

/-- Regex `re.sub(r'-\d+$', '', p)`: drop a trailing dash-digits suffix. -/
def stripNumSuffix (p : Str) : Str :=
  let rs := p.reverse
  match (rs.dropWhile isDigit : Str) with
  | '-' :: r => if rs.takeWhile isDigit = [] then p else r.reverse
  | _ => p

/-- Regex `re.match(r'-\d+$', s)`: the whole string is a dash followed by at
least one digit. -/
def isDashDigits : Str → Bool
  | '-' :: r => !r.isEmpty && r.all isDigit
  | _ => false

/-- Deduplicating queue insertion for discovered pages. -/
def pushNewUrl (l : List Url) (u : Url) : List Url := if u ∈ l then l else l ++ [u]

/-- Page-discovery phase of BouquetParser.parse_satkurier (tvhlst.py, lines
212-262).  The seed page's links are examined: a link whose raw href
contains the pagination marker, or a same-domain link whose path (with a
`.html` extension stripped) extends the seed path's de-suffixed root by a
`-<digits>` suffix, joins the queue.  A failing seed fetch is caught right
here by the discovery handler (a printed warning), leaving only the seed
queued.  Python iterates the queue as a set, whose order is unspecified; the
model keeps discovery order — no claim below depends on the order. -/
def discoverPages (fetch : Url → Option Page) (baseUrl : Url) : List Url :=
  match fetch baseUrl with
  | none => [baseUrl]
  | some page =>
    let baseNoExt := stripNumSuffix (stripAfterLastDot baseUrl.path)
    page.links.foldl
      (fun acc link =>
        if hasSub (str "page=") (lowerStr link.href) then pushNewUrl acc link.target
        else if link.target.scheme = baseUrl.scheme ∧ link.target.netloc = baseUrl.netloc then
          let linkNoExt :=
            if List.isSuffixOf (str ".html") link.target.path then
              stripAfterLastDot link.target.path
            else link.target.path
          if List.isPrefixOf baseNoExt linkNoExt ∧
              isDashDigits (linkNoExt.drop baseNoExt.length) then
            pushNewUrl acc link.target
          else acc
        else acc)
      [baseUrl]

/-- Column-header keywords of the tvhlst.py row classifier (line 289). -/
def headerKeywords : List Str :=
  [str "nazwa", str "name", str "częstotliwość", str "freq", str "transponder",
   str "tp", str "pol", str "sr", str "dostawca", str "nr", str "rozdzielczość",
   str "parametry"]

/-- Marker phrases whose presence in the joined row text skips the row
(line 326). -/
def headerJunk : List Str :=
  [str "nr nazwa", str "rozdzielczość parametry", str "parametry techniczne"]

/-- Python `' '.join`. -/
def joinSpace (l : List Str) : Str :=
  match l with
  | [] => []
  | x :: xs => xs.foldl (fun acc y => acc ++ [' '] ++ y) x

/-- Recorded column indices of the current table (the source's -1 sentinels
become none). -/
structure TableScan where
  nameCol : Option Nat := none
  freqCol : Option Nat := none
deriving Repr

/-- Column-index extraction from a recognised header row (lines 292-297):
the last cell whose text contains the name keyword without the package or
genre keywords sets the name column; likewise for the frequency column. -/
def scanHeaderCols (headerTexts : List Str) (ts : TableScan) : TableScan :=
  headerTexts.enum.foldl
    (fun s p =>
      let t := p.2
      let s1 :=
        if hasSub (str "nazwa") t ∧ ¬ hasSub (str "pakiet") t ∧ ¬ hasSub (str "gatunek") t
        then { s with nameCol := some p.1 } else s
      if hasSub (str "freq") t ∨ hasSub (str "częstotliwość") t
      then { s1 with freqCol := some p.1 } else s1)
    ts

/-- Per-page scan state of tvhlst.py's parse loop: the active category
(reset to the default at the start of every page) and the entries collected
so far on this page. -/
structure PageScan where
  category : Str
  chans : List Entry := []
deriving Repr

/-- Row classification of tvhlst.py (lines 284-332): empty rows are skipped;
a row whose joined lower-cased text contains two or more header keywords
records column indices; a single-cell colspan row with text longer than two
characters sets the category; rows of fewer than two cells are skipped;
otherwise the name (from the recorded name column when in range) and the
frequency-column text are extracted, junk rows are filtered, and
parse_channel_info builds an entry tagged with the active category. -/
def rowStepLst (st : TableScan × PageScan) (row : Row) : TableScan × PageScan :=
  let (ts, ps) := st
  let cells := row.cells
  if cells = [] then (ts, ps)
  else
    let headerTexts := cells.map (fun c => lowerStr c.text)
    let joined := joinSpace headerTexts
    let matchCount := (headerKeywords.filter (fun kw => hasSub kw joined)).length
    if 2 ≤ matchCount then (scanHeaderCols headerTexts ts, ps)
    else if cells.length = 1 ∧ (cells.headD {}).colspan then
      let ht := (cells.headD {}).text
      if ht ≠ [] ∧ 2 < ht.length then (ts, { ps with category := ht }) else (ts, ps)
    else if cells.length < 2 then (ts, ps)
    else
      let allJoined := joinSpace (cells.map (fun c => c.text))
      let rawName :=
        match ts.nameCol with
        | some i => if h : i < cells.length then (cells.get ⟨i, h⟩).text else allJoined
        | none => allJoined
      let rawFreq :=
        match ts.freqCol with
        | some i => if h : i < cells.length then (cells.get ⟨i, h⟩).text else []
        | none => []
      if rawName = [] ∨ rawName.all isDigit then (ts, ps)
      else if rawName.all (fun c => isSpace c || c == '-' || c == '_' || c == '=') ∨
          rawName.length < 3 then (ts, ps)
      else if headerJunk.any (fun kw => hasSub kw joined) then (ts, ps)
      else
        match parseChannelInfoLst rawName rawFreq with
        | some e =>
          if e.name ≠ [] then
            (ts, { ps with chans := ps.chans ++ [{ e with category := ps.category }] })
          else (ts, ps)
        | none => (ts, ps)

/-- One table of a page: fresh column indices, threaded page state. -/
def tableStepLst (ps : PageScan) (t : Table) : PageScan :=
  (t.rows.foldl rowStepLst ({}, ps)).2

/-- All entries of one fetched page (category starts at the default on every
page). -/
def parsePageLst (page : Page) : List Entry :=
  (page.tables.foldl tableStepLst { category := str "Bez kategorii" }).chans

/-- Append an entry to the accumulated bouquets under its category. -/
def addEntryToB (bs : List (Str × List Entry)) (e : Entry) : List (Str × List Entry) :=
  addToGroup bs e.category e

/-- Per-category renumbering 1..n of the final bouquets (lines 342-344). -/
def numberB (bs : List (Str × List Entry)) : List (Str × List Entry) :=
  bs.map (fun p => (p.1, p.2.enum.map (fun q => { q.2 with number := q.1 + 1 })))

/-- BouquetParser.parse_satkurier of tvhlst.py.  Each queued page is fetched
inside its own handler: a failing fetch — including a seed page failing a
second time after the discovery handler already swallowed its first failure
— is logged and skipped, never aborting the run.  The source's outermost
handler re-raises only exceptions escaping both inner handlers, which fetch
failures cannot; accordingly no input reaches the error constructor of the
result type. -/
def parseSatkurier (fetch : Url → Option Page) (baseUrl : Url) :
    Except Str (List (Str × List Entry)) :=
  let pages := discoverPages fetch baseUrl
  let allB := pages.foldl
    (fun acc u =>
      match fetch u with
      | none => acc
      | some page => (parsePageLst page).foldl addEntryToB acc)
    []
  .ok (numberB allB)

/-- Ensure a category group exists (Python `if cat not in bouquets:
bouquets[cat] = []`). -/
def ensureGroup (bs : List (Str × List Entry)) (cat : Str) : List (Str × List Entry) :=
  if (alookupK bs cat).isSome then bs else bs ++ [(cat, [])]

/-- Row step of BouquetParser.parse_satkurier in tvh-bouquet-fixed.py (lines
190-221): single-cell colspan rows with text longer than two characters open
a category group and set the active category; any other non-empty row's
joined cell text (unless empty or all digits) is parsed into an entry,
numbered by the document-wide running counter. -/
def rowStepFixedP (st : List (Str × List Entry) × Str × Nat) (row : Row) :
    List (Str × List Entry) × Str × Nat :=
  let (bs, cat, num) := st
  let cells := row.cells
  if cells = [] then st
  else if cells.length = 1 ∧ (cells.headD {}).colspan then
    let ht := (cells.headD {}).text
    if ht ≠ [] ∧ 2 < ht.length then (ensureGroup bs ht, ht, num) else st
  else
    let fullText := joinSpace (cells.map (fun c => c.text))
    if fullText = [] ∨ fullText.all isDigit then st
    else
      match parseChannelInfoFixed fullText with
      | some e =>
        if e.name ≠ [] then
          (addToGroup (ensureGroup bs cat) cat { e with number := num, category := cat },
            cat, num + 1)
        else st
      | none => st

/-- BouquetParser.parse_satkurier of tvh-bouquet-fixed.py: a single
document; a failing fetch escapes to the outer handler and aborts with an
error; the category persists across every table of the document. -/
def parseSatkurierFixed (fetch : Url → Option Page) (u : Url) :
    Except Str (List (Str × List Entry)) :=
  match fetch u with
  | none => .error (str "Błąd parsowania strony")
  | some page =>
    .ok ((page.tables.foldl (fun st t => t.rows.foldl rowStepFixedP st)
      ([], str "Bez kategorii", 1)).1)

/-- Stand-in for the external difflib.SequenceMatcher ratio at the inputs of
the concrete theorems below, in integer hundredths: equal strings score 100
(the real ratio gives such pairs 1.0), all other pairs 0.  The run models
take the score function and its ordered codomain as parameters, so
statements about the matching logic hold for the real ratio as well. -/
def simRefl (a b : Str) : ℤ := if a = b then 100 else 0

/-- The service uuid consumed by a create or update action, if any. -/
def serviceTarget : ImportAction → Option Str
  | .createChannel s _ _ _ => some s
  | .updateChannel s _ _ _ _ => some s
  | .createTag _ _ _ => none

/-- All consumed service uuids of an action list, in order. -/
def serviceTargets (acts : List ImportAction) : List Str :=
  acts.filterMap serviceTarget

/-- The channel uuid targeted by an update action, if any. -/
def updateTarget : ImportAction → Option Str
  | .updateChannel _ ch _ _ _ => some ch
  | _ => none

/-- Fixture: run configuration for the consumption-invariant scenario (the
externally supplied score is the equality stand-in; the threshold is the
GUI's 5 percent default, in the same hundredths scale; tag creation is
unticked). -/
def c1Cfg : FixedCfg ℤ :=
  { score := simRefl, threshold := 5, createTags := false,
    mkTagUuid := fun _ _ => str "t-unused" }

/-- Fixture: two parsed entries whose normalised names differ but whose
variant strings both coincide with the one service's key. -/
def c1Bouquets : List (Str × List Entry) :=
  [(str "Bez kategorii",
    [{ name := str "Alfa", number := 1 }, { name := str "Al fa", number := 2 }])]

/-- Fixture: a single catalog service. -/
def c1Services : List Service := [{ uuid := str "u1", svcname := str "Alfa" }]

/-- Fixture: run configuration for the frame-effect scenario. -/
def c5Cfg : LstCfg :=
  { useServiceNames := true, createTags := true, mkTagUuid := fun _ _ => str "t-new" }

/-- Fixture: one entry in one category. -/
def c5Bouquets : List (Str × List Entry) :=
  [(str "Sport", [{ name := str "Alfa", number := 1 }])]

/-- Fixture: one matching service (no multiplex, so its frequency key is 0,
matching the entry's empty frequency string). -/
def c5Services : List Service := [{ uuid := str "s1", svcname := str "Alfa" }]

/-- Fixture: the cached channel snapshot — the first channel backs the
matched service and has no tags; the second is untouched by the run. -/
def c5Channels : List Channel :=
  [{ uuid := str "c1", services := [str "s1"] },
   { uuid := str "c2", services := [str "s2"], tags := [str "t9"] }]

/-- Fixture: the tag snapshot already contains the category's tag. -/
def c5Tags : List TagRec := [{ name := str "Sport", uuid := str "t1" }]

/-- Fixture: seed URL of the pagination scenarios. -/
def seedUrl : Url :=
  { scheme := str "https", netloc := str "satkurier.pl", path := str "/lista.html" }

/-- Fixture: the discovered second page's URL. -/
def page2Url : Url :=
  { scheme := str "https", netloc := str "satkurier.pl", path := str "/lista-2.html" }

/-- Fixture: a two-cell channel row. -/
def chRow (n nm : String) : Row := { cells := [{ text := str n }, { text := str nm }] }

/-- Fixture: a single-cell category-header row with a colspan attribute. -/
def catRow (c : String) : Row := { cells := [{ colspan := true, text := str c }] }

/-- Fixture: the seed page — a sibling-page link, a table opening the Sport
category with one channel row, and a second table with another channel row
(so in-page persistence across tables is exercised). -/
def seedPage : Page :=
  { links := [{ href := str "lista-2.html", target := page2Url }]
    tables := [{ rows := [catRow "Sport", chRow "1." "Alfa TV"] },
               { rows := [chRow "2." "Beta TV"] }] }

/-- Fixture: the second page — one channel row, no category header. -/
def page2 : Page := { tables := [{ rows := [chRow "1." "Gamma TV"] }] }

/-- Fixture: fetch oracle with both pages available. -/
def fetchOk : Url → Option Page := fun u =>
  if u = seedUrl then some seedPage else if u = page2Url then some page2 else none

/-- Fixture: fetch oracle where only the seed page is reachable (the
discovered secondary page's fetch fails). -/
def fetchP2Fail : Url → Option Page := fun u => if u = seedUrl then some seedPage else none

/-- Fixture: fetch oracle where every fetch, the seed's included, fails. -/
def fetchFail : Url → Option Page := fun _ => none

/-- Good-case token characters: t is the unique upper-case form of its
lower-case image and is fixed by upper-casing (holds for the upper-case
letters and digits of the quality tokens). -/
def goodTok (t : Char) : Prop :=
  (∀ q ∈ caseTable, q.2 = pyLower t → q.1 = t) ∧ pyUpper (pyLower t) = t ∧ pyUpper t = t

instance (t : Char) : Decidable (goodTok t) := by
  unfold goodTok; infer_instance

/-- Raw category-header condition of the row classifiers: one cell, colspan
set, text longer than two characters. -/
def isCatHeaderRow (r : Row) : Prop :=
  r.cells.length = 1 ∧ (r.cells.headD {}).colspan = true ∧
    (r.cells.headD {}).text ≠ [] ∧ 2 < (r.cells.headD {}).text.length

/-- A page none of whose rows can open a category. -/
def noCatHeader (page : Page) : Prop :=
  ∀ t ∈ page.tables, ∀ r ∈ t.rows, ¬ isCatHeaderRow r

instance (r : Row) : Decidable (isCatHeaderRow r) := by
  unfold isCatHeaderRow; infer_instance

instance (p : Page) : Decidable (noCatHeader p) := by
  unfold noCatHeader; infer_instance

/-- Summary projection of an ingestion result: category names with (name,
number) pairs per entry, for readable statements. -/
def bouquetSummary (r : Except Str (List (Str × List Entry))) :
    Option (List (Str × List (Str × Nat))) :=
  match r with
  | .ok bs => some (bs.map (fun p => (p.1, p.2.map (fun e => (e.name, e.number)))))
  | .error _ => none

/-- The categories of an ingestion result that contain an entry with the
given cleaned name. -/
def categoriesOfName (r : Except Str (List (Str × List Entry))) (nm : Str) : List Str :=
  match r with
  | .ok bs => (bs.filter (fun p => p.2.any (fun e => e.name == nm))).map Prod.fst
  | .error _ => []

/-- Fixture: the entry produced from the second page's single row (used to
witness the category-scope theorem). -/
def gammaEntry : Entry :=
  { name := str "Gamma TV", fullText := str "Gamma TV", category := str "Bez kategorii" }

/-- Fixture: the first survivor of deduplicating the two-entry bouquet (used
to witness the deduplication theorem). -/
def c8SampleP : Str × Entry :=
  (str "alfa", { name := str "Alfa", number := 1, category := str "Bez kategorii" })

/-- Fixture: the entry parsed from the sample row of the parse-contract
witness. -/
def c10SampleEntry : Entry :=
  { name := str "Alfa", fullText := str "Alfa hd", quality := str "HD" }

/-- Fixture: the untouched cached channel of the frame-effect witness. -/
def c2Cached : Channel :=
  { uuid := str "c2", services := [str "s2"], tags := [str "t9"] }

/-- Frame invariant of a run relative to the initial channel snapshot: the
store keeps per-position records with unchanged uuids, and a position whose
channel is not the target of any emitted update action still holds its
original record. -/
def framePred (chs0 : List Channel) (st : RunState) : Prop :=
  ∀ (i : Nat) (ch : Channel), chs0[i]? = some ch →
    ∃ ch2 : Channel, st.store[i]? = some ch2 ∧ ch2.uuid = ch.uuid ∧
      ((∀ a ∈ st.actions, updateTarget a ≠ some ch.uuid) → ch2 = ch)

/-- Consumption invariant of a run state: consumed-service targets of the
emitted actions are pairwise distinct and all recorded as processed. -/
def consumedOnce (st : RunState) : Prop :=
  (serviceTargets st.actions).Nodup ∧
    ∀ u ∈ serviceTargets st.actions, u ∈ st.processedServices


/-- C2 counterexample: on the Scenario A row, neither listed variant's
parse_channel_info produces the claimed cleaned name "Polsat Sport HD". -/
theorem c2_cleaned_name_counterexample :
    ((parseChannelInfoLst (str "1. Polsat Sport HD 11,508 V 27500 DVB-S2 3/4") []).map
        (fun e => e.name)) ≠ some (str "Polsat Sport HD") ∧
    ((parseChannelInfoFixed (str "1. Polsat Sport HD 11,508 V 27500 DVB-S2 3/4")).map
        (fun e => e.name)) ≠ some (str "Polsat Sport HD") := by
  refine ⟨?_, ?_⟩ <;> decide

/-- C2 amended: the technical fields are extracted exactly as claimed
(frequency 11,508, polarization V, symbol rate 27500, FEC 3/4, modulation
DVB-S2, quality HD), but the cleaned display name is "Polsat Sport 27500" in
the tvhlst variant (quality removed, a symbol-rate residue kept) and
"Polsat Sport 11,508 V 275003/4 HD" in the fixed variant (quality re-appended
upper-case at the end, satellite parameters kept). -/
theorem c2_scenarioA_fields :
    parseChannelInfoLst (str "1. Polsat Sport HD 11,508 V 27500 DVB-S2 3/4") [] =
      some { name := str "Polsat Sport 27500"
             fullText := str "Polsat Sport HD 11,508 V 27500 DVB-S2 3/4"
             quality := str "HD", frequency := str "11,508", polarization := str "V"
             symbolRate := str "27500", fec := str "3/4", modulation := str "DVB-S2" } ∧
    parseChannelInfoFixed (str "1. Polsat Sport HD 11,508 V 27500 DVB-S2 3/4") =
      some { name := str "Polsat Sport 11,508 V 275003/4 HD"
             fullText := str "Polsat Sport HD 11,508 V 27500 DVB-S2 3/4"
             quality := str "HD", frequency := str "11,508", polarization := str "V"
             symbolRate := str "27500", fec := str "3/4", modulation := str "DVB-S2" } := by
  exact ⟨rfl, rfl⟩

/-- C6 counterexample: the cleaning functions are not idempotent; a second
application of tvhlst's clean_channel_name strips the residue of the first. -/
theorem c6_idempotence_counterexample :
    cleanLst (cleanLst (str "123456/7")) ≠ cleanLst (str "123456/7") := by
  decide

/-- C6 amended: in every variant there are names on which a second cleaning
pass strips further: FEC removal leaves a five-digit residue that only the
next pass's symbol-rate rule removes (tvhlst, tvhlstfta), and excising a
modulation token can splice a new modulation token together (fixed). -/
theorem c6_second_pass_strips_more :
    cleanLst (str "123456/7") = str "12345" ∧ cleanLst (str "12345") = [] ∧
    cleanFta (str "123456/7") = str "12345" ∧ cleanFta (str "12345") = [] ∧
    cleanFixed (str "dvdvb-s2b-s1") = str "dvb-s1" ∧ cleanFixed (str "dvb-s1") = [] := by
  exact ⟨rfl, rfl, rfl, rfl, rfl, rfl⟩

/-- C7: the frequency conversion reads the comma as a decimal dot, scales
sub-1000 values from GHz to MHz, and passes values at or above 1000 through,
yielding exactly 11508 for both claimed inputs. -/
theorem c7_freq_conversion :
    getFreqMhzFromStr (str "11,508") = 11508 ∧ getFreqMhzFromStr (str "11508") = 11508 := by
  refine ⟨?_, ?_⟩ <;> decide

/-- C9: letters-only keys collapse TVN 24 and TVN24 to tvn and TVP 1 and
TVP 2 to tvp; letters-and-digits keys give tvn24 for both TVN spellings and
the distinct keys tvp1 and tvp2. -/
theorem c9_key_modes :
    normalizeFta (str "TVN 24") = str "tvn" ∧ normalizeFta (str "TVN24") = str "tvn" ∧
    normalizeFta (str "TVP 1") = str "tvp" ∧ normalizeFta (str "TVP 2") = str "tvp" ∧
    normalizeLst (str "TVN 24") = str "tvn24" ∧ normalizeLst (str "TVN24") = str "tvn24" ∧
    normalizeLst (str "TVP 1") = str "tvp1" ∧ normalizeLst (str "TVP 2") = str "tvp2" ∧
    normalizeLst (str "TVP 1") ≠ normalizeLst (str "TVP 2") := by
  refine ⟨rfl, rfl, rfl, rfl, rfl, rfl, rfl, rfl, ?_⟩
  decide

/-- C1: in the fuzzy-matching run the consumed-service check compares the
normalised service name against the set of consumed uuids, so a service
consumed by one entry is scored and consumed again by a later entry: on this
run the single service u1 is the target of two create-channel actions. -/
theorem c1_consumed_service_retargeted :
    serviceTargets (runFixed c1Cfg c1Bouquets c1Services [] []).actions =
      [str "u1", str "u1"] := by
  decide

/-- C5 counterexample: after a run that updates the channel backing service
s1, the cached channel snapshot is not the one fetched at run start — the
category tag t1 has been appended in place to channel c1's tag list. -/
theorem c5_snapshot_mutated :
    (runLst c5Cfg c5Bouquets c5Services [] c5Channels c5Tags).store =
      [{ uuid := str "c1", services := [str "s1"], tags := [str "t1"] },
       { uuid := str "c2", services := [str "s2"], tags := [str "t9"] }] ∧
    (runLst c5Cfg c5Bouquets c5Services [] c5Channels c5Tags).store ≠ c5Channels := by
  refine ⟨rfl, ?_⟩
  decide

/-- C3 counterexample: with a fetch that fails on every page, the seed page
included, tvhlst's ingestion does not abort: the seed failure is swallowed
by the discovery handler and then by the per-page handler, and ingestion
returns a normal, empty result. -/
theorem c3_seed_failure_returns_ok :
    parseSatkurier fetchFail seedUrl = .ok [] := by
  rfl

/-- C3 amended: ingestion never aborts on fetch failures — every run of
tvhlst's parse_satkurier returns a normal result for every fetch oracle; a
failing discovered page is skipped while the others' entries survive; the
seed failure path also degrades to a normal result (see the counterexample);
only the paginationless fixed variant aborts on its single fetch. -/
theorem c3_failure_handling_amended :
    (∀ (fetch : Url → Option Page) (u : Url), ∃ bs, parseSatkurier fetch u = .ok bs) ∧
    bouquetSummary (parseSatkurier fetchP2Fail seedUrl) =
      some [(str "Sport", [(str "Alfa TV", 1), (str "Beta TV", 2)])] ∧
    bouquetSummary (parseSatkurier fetchOk seedUrl) =
      some [(str "Sport", [(str "Alfa TV", 1), (str "Beta TV", 2)]),
            (str "Bez kategorii", [(str "Gamma TV", 1)])] ∧
    parseSatkurierFixed fetchFail seedUrl = .error (str "Błąd parsowania strony") := by
  exact ⟨fun fetch u => ⟨_, rfl⟩, rfl, rfl, rfl⟩

/-- C4 counterexample: the entry of the discovered second page does not
inherit the category Sport opened on the seed page — the active category
resets to the default at every fetched page. -/
theorem c4_category_not_cross_page :
    categoriesOfName (parseSatkurier fetchOk seedUrl) (str "Gamma TV") =
      [str "Bez kategorii"] ∧
    (str "Bez kategorii") ≠ (str "Sport") := by
  refine ⟨rfl, ?_⟩
  decide

/-- A row that is not a category header leaves the active category
unchanged. -/
theorem rowStepLst_cat (ts : TableScan) (ps : PageScan) (row : Row)
    (h : ¬ isCatHeaderRow row) :
    (rowStepLst (ts, ps) row).2.category = ps.category := by
  simp only [rowStepLst]
  split
  · rfl
  · split
    · rfl
    · split
      next hc =>
        split
        next hht => exact absurd ⟨hc.1, hc.2, hht.1, hht.2⟩ h
        next => rfl
      next =>
        split
        · rfl
        · repeat' split
          all_goals rfl

/-- Entries collected by one row step are either carried over or tagged with
the currently active category. -/
theorem rowStepLst_chans (ts : TableScan) (ps : PageScan) (row : Row) :
    ∀ e ∈ (rowStepLst (ts, ps) row).2.chans, e ∈ ps.chans ∨ e.category = ps.category := by
  simp only [rowStepLst]
  repeat' split
  all_goals intro e he
  all_goals try exact .inl he
  all_goals
    rcases List.mem_append.1 he with h1 | h1
  all_goals try exact .inl h1
  all_goals
    simp only [List.mem_singleton] at h1
  all_goals subst h1
  all_goals exact .inr rfl

/-- Folding the rows of one table: without category headers the category is
preserved and new entries carry the incoming category. -/
theorem rowsFold_cat (rows : List Row) :
    ∀ st : TableScan × PageScan, (∀ r ∈ rows, ¬ isCatHeaderRow r) →
      (rows.foldl rowStepLst st).2.category = st.2.category ∧
      ∀ e ∈ (rows.foldl rowStepLst st).2.chans, e ∈ st.2.chans ∨ e.category = st.2.category := by
  induction rows with
  | nil => exact fun st _ => ⟨rfl, fun e he => .inl he⟩
  | cons r rs ih =>
    intro st h
    have hr : ¬ isCatHeaderRow r := h r (List.mem_cons_self r rs)
    have hrs : ∀ x ∈ rs, ¬ isCatHeaderRow x := fun x hx => h x (List.mem_cons_of_mem r hx)
    have h1 := rowStepLst_cat st.1 st.2 r hr
    have h2 := rowStepLst_chans st.1 st.2 r
    have h3 := ih (rowStepLst st r) hrs
    rw [List.foldl_cons]
    refine ⟨h3.1.trans h1, fun e he => ?_⟩
    rcases h3.2 e he with h4 | h4
    · rcases h2 e h4 with h5 | h5
      · exact .inl h5
      · exact .inr h5
    · exact .inr (h4.trans h1)

/-- Folding the tables of one page: without category headers the page-level
category is preserved and all collected entries carry it. -/
theorem tablesFold_cat (tabs : List Table) :
    ∀ ps : PageScan, (∀ t ∈ tabs, ∀ r ∈ t.rows, ¬ isCatHeaderRow r) →
      (tabs.foldl tableStepLst ps).category = ps.category ∧
      ∀ e ∈ (tabs.foldl tableStepLst ps).chans, e ∈ ps.chans ∨ e.category = ps.category := by
  induction tabs with
  | nil => exact fun ps _ => ⟨rfl, fun e he => .inl he⟩
  | cons t ts ih =>
    intro ps h
    have ht := h t (List.mem_cons_self t ts)
    have hts : ∀ x ∈ ts, ∀ r ∈ x.rows, ¬ isCatHeaderRow r :=
      fun x hx => h x (List.mem_cons_of_mem t hx)
    have h1 := rowsFold_cat t.rows ({}, ps) ht
    have h3 := ih (tableStepLst ps t) hts
    rw [List.foldl_cons]
    have hcat : (tableStepLst ps t).category = ps.category := h1.1
    refine ⟨h3.1.trans hcat, fun e he => ?_⟩
    rcases h3.2 e he with h4 | h4
    · rcases h1.2 e h4 with h5 | h5
      · exact .inl h5
      · exact .inr h5
    · exact .inr (h4.trans hcat)

/-- C4 amended: a single-cell colspan row with text longer than two
characters sets the active category for all subsequent channel rows,
persisting across tables within the same fetched page, but the category
resets to the default at every new page: a page without category headers
yields only uncategorized entries regardless of what earlier pages set, and
on the concrete two-page document the second table's row still belongs to
Sport while the second page's row is uncategorized. -/
theorem c4_category_scope_amended :
    (∀ page : Page, noCatHeader page →
      ∀ e ∈ parsePageLst page, e.category = str "Bez kategorii") ∧
    bouquetSummary (parseSatkurier fetchOk seedUrl) =
      some [(str "Sport", [(str "Alfa TV", 1), (str "Beta TV", 2)]),
            (str "Bez kategorii", [(str "Gamma TV", 1)])] := by
  constructor
  · intro page h e he
    have h2 := (tablesFold_cat page.tables { category := str "Bez kategorii" } h).2 e he
    rcases h2 with h3 | h3
    · simp at h3
    · exact h3
  · rfl

/-- Witness for the category-scope theorem: the second page has no category
header, and its parsed entry is uncategorized. -/
theorem c4_category_scope_amended_witness :
    gammaEntry.category = str "Bez kategorii" :=
  c4_category_scope_amended.1 page2 (by decide) gammaEntry (by decide)

/-- Store-preserving, action-extending steps preserve the frame invariant. -/
theorem framePred_extend (chs0 : List Channel) (st st2 : RunState)
    (hs : st2.store = st.store) (ha : ∀ a ∈ st.actions, a ∈ st2.actions)
    (hP : framePred chs0 st) : framePred chs0 st2 := by
  intro i ch hch
  obtain ⟨ch2, h1, h2, h3⟩ := hP i ch hch
  exact ⟨ch2, hs ▸ h1, h2, fun hall => h3 (fun a hmem => hall a (ha a hmem))⟩

/-- Tag resolution never touches the channel store and only appends
actions. -/
theorem framePred_resolveTag (chs0 : List Channel) (ct : Bool)
    (mk : Str → Nat → Str) (st : RunState) (cat : Str) (hP : framePred chs0 st) :
    framePred chs0 (resolveTag ct mk st cat).2 := by
  unfold resolveTag
  split
  · split
    · exact hP
    · exact framePred_extend chs0 st _ rfl
        (fun a hmem => List.mem_append.2 (.inl hmem)) hP
  · exact hP

/-- The per-entry step of the tvhlst run preserves the frame invariant: all
paths leave the store unchanged except the update path, which only rewrites
the position of the channel named in the update action it appends. -/
theorem framePred_entryStepLst (chs0 : List Channel) (cfg : LstCfg)
    (smap : List ((Str × ℤ) × Service)) (cbs : List (Str × Nat))
    (tagUuid : Option Str) (st : RunState) (e : Entry) (hP : framePred chs0 st) :
    framePred chs0 (entryStepLst cfg smap cbs tagUuid st e) := by
  simp only [entryStepLst]
  by_cases hk : normalizeLst e.name = []
  · rw [if_pos hk]; exact hP
  · rw [if_neg hk]
    rcases hsv : alookupK smap (normalizeLst e.name, getFreqMhzFromStr e.frequency) with _ | svc
    · exact hP
    · simp only
      by_cases hc : svc.uuid ∈ st.processedServices
      · rw [if_pos hc]; exact hP
      · rw [if_neg hc]
        rcases hcb : alookupK cbs svc.uuid with _ | idx
        · simp only
          exact framePred_extend chs0 st _ rfl
            (fun a hmem => List.mem_append.2 (.inl hmem)) hP
        · simp only
          rcases hch : st.store[idx]? with _ | ch
          · simp only
            exact hP
          · simp only
            intro j cj hcj
            by_cases hij : idx = j
            · subst hij
              obtain ⟨cj2, h1, h2, h3⟩ := hP idx cj hcj
              have hx : ch = cj2 := by
                rw [h1] at hch
                exact (Option.some_inj.1 hch).symm
              have hlt : idx < st.store.length :=
                (List.getElem?_eq_some_iff.1 h1).1
              refine ⟨_, List.getElem?_set_self hlt, ?_, ?_⟩
              · exact (hx ▸ h2 : ch.uuid = cj.uuid)
              · intro hall
                exfalso
                have h5 := hall _ (List.mem_append.2 (.inr (List.mem_singleton.2 rfl)))
                simp only [updateTarget] at h5
                exact h5 (by rw [hx, h2])
            · obtain ⟨cj2, h1, h2, h3⟩ := hP j cj hcj
              refine ⟨cj2, (List.getElem?_set_ne hij).trans h1, h2, ?_⟩
              intro hall
              exact h3 (fun a hmem => hall a (List.mem_append.2 (.inl hmem)))

/-- Folding the entry step over a category's entries preserves the frame
invariant. -/
theorem framePred_entriesFold (chs0 : List Channel) (cfg : LstCfg)
    (smap : List ((Str × ℤ) × Service)) (cbs : List (Str × Nat))
    (tagUuid : Option Str) (es : List Entry) :
    ∀ st : RunState, framePred chs0 st →
      framePred chs0 (es.foldl (entryStepLst cfg smap cbs tagUuid) st) := by
  induction es with
  | nil => exact fun st h => h
  | cons e es ih =>
    intro st h
    rw [List.foldl_cons]
    exact ih _ (framePred_entryStepLst chs0 cfg smap cbs tagUuid st e h)

/-- The whole tvhlst run satisfies the frame invariant over its initial
channel snapshot. -/
theorem framePred_runLst (cfg : LstCfg) (bouquets : List (Str × List Entry))
    (services : List Service) (muxes : List (Str × Nat)) (channels : List Channel)
    (tags0 : List TagRec) :
    framePred channels (runLst cfg bouquets services muxes channels tags0) := by
  simp only [runLst]
  have hstep : ∀ (bs : List (Str × List Entry)) (st : RunState), framePred channels st →
      framePred channels (bs.foldl
        (fun st p =>
          p.2.foldl
            (entryStepLst cfg (servicesMapLst muxes services) (channelsByService channels)
              (resolveTag cfg.createTags cfg.mkTagUuid st p.1).1)
            (resolveTag cfg.createTags cfg.mkTagUuid st p.1).2) st) := by
    intro bs
    induction bs with
    | nil => exact fun st h => h
    | cons p ps ih =>
      intro st h
      rw [List.foldl_cons]
      refine ih _ ?_
      exact framePred_entriesFold channels cfg _ _ _ p.2 _
        (framePred_resolveTag channels cfg.createTags cfg.mkTagUuid st p.1 h)
  exact hstep bouquets _ (fun i ch hch => ⟨ch, hch, rfl, fun _ => rfl⟩)

/-- C5 amended: the run's mutation of the cached snapshot is confined to the
channels named by its update actions (whose tag lists may gain the category
tag in place, as the counterexample shows); every cached channel that no
update action targets still holds its original record when the run ends, and
service and tag records are never written at all. -/
theorem c5_frame_amended :
    ∀ (cfg : LstCfg) (bouquets : List (Str × List Entry)) (services : List Service)
      (muxes : List (Str × Nat)) (channels : List Channel) (tags0 : List TagRec)
      (i : Nat) (ch : Channel), channels[i]? = some ch →
      (∀ a ∈ (runLst cfg bouquets services muxes channels tags0).actions,
        updateTarget a ≠ some ch.uuid) →
      (runLst cfg bouquets services muxes channels tags0).store[i]? = some ch := by
  intro cfg bouquets services muxes channels tags0 i ch hch hall
  obtain ⟨ch2, h1, h2, h3⟩ :=
    framePred_runLst cfg bouquets services muxes channels tags0 i ch hch
  rw [h1, h3 hall]

/-- Witness for the frame theorem: in the concrete mutating run, the cached
channel c2 — untargeted by the single update action — is unchanged. -/
theorem c5_frame_amended_witness :
    (runLst c5Cfg c5Bouquets c5Services [] c5Channels c5Tags).store[1]? =
      some c2Cached :=
  c5_frame_amended c5Cfg c5Bouquets c5Services [] c5Channels c5Tags 1 c2Cached
    (by rfl) (by decide)

/-- The deduplication accumulator only grows. -/
theorem dedupCore_sub : ∀ (l acc : List (Str × Entry)) (n : Nat),
    acc ⊆ dedupCore l acc n := by
  intro l
  induction l with
  | nil => intro acc n; exact fun x hx => hx
  | cons p rest ih =>
    intro acc n
    obtain ⟨cat, ch⟩ := p
    simp only [dedupCore]
    split
    · exact fun x hx => ih _ _ (List.mem_append.2 (.inl hx))
    · exact ih _ _

/-- Deduplication keeps the comparison keys pairwise distinct. -/
theorem dedupCore_keys_nodup : ∀ (l acc : List (Str × Entry)) (n : Nat),
    (acc.map Prod.fst).Nodup → ((dedupCore l acc n).map Prod.fst).Nodup := by
  intro l
  induction l with
  | nil => exact fun acc n h => h
  | cons p rest ih =>
    intro acc n h
    obtain ⟨cat, ch⟩ := p
    simp only [dedupCore]
    split
    next hcond =>
      refine ih _ _ ?_
      rw [List.map_append]
      simp only [List.map_cons, List.map_nil]
      rw [List.nodup_append]
      refine ⟨h, List.nodup_singleton _, ?_⟩
      intro k hk
      simp only [List.mem_singleton]
      intro hkeq
      rcases List.mem_map.1 hk with ⟨q, hq, hqk⟩
      exact absurd (hqk.trans hkeq) (hcond.2 q hq)
    · exact ih _ _ h

/-- Deduplication never produces more entries than accumulator plus input. -/
theorem dedupCore_length : ∀ (l acc : List (Str × Entry)) (n : Nat),
    (dedupCore l acc n).length ≤ acc.length + l.length := by
  intro l
  induction l with
  | nil => intro acc n; simp [dedupCore]
  | cons p rest ih =>
    intro acc n
    obtain ⟨cat, ch⟩ := p
    simp only [dedupCore]
    split
    · calc (dedupCore rest (acc ++ [_]) (n + 1)).length
          ≤ (acc ++ [_]).length + rest.length := ih _ _
        _ = acc.length + (rest.length + 1) := by simp [Nat.add_assoc, Nat.add_comm 1]
        _ = acc.length + (rest.cons (cat, ch)).length := by simp
    · calc (dedupCore rest acc n).length ≤ acc.length + rest.length := ih _ _
        _ ≤ acc.length + (rest.length + 1) := by omega
        _ = acc.length + (rest.cons (cat, ch)).length := by simp

/-- Every entry of the deduplicated output is either inherited from the
accumulator or is the first input occurrence of its (non-empty) key, carried
over unchanged except for its assigned number and category. -/
theorem dedupCore_mem : ∀ (l acc : List (Str × Entry)) (n : Nat) (p : Str × Entry),
    p ∈ dedupCore l acc n →
    p ∈ acc ∨ (p.1 ≠ [] ∧ (∀ q ∈ acc, q.1 ≠ p.1) ∧
      ∃ cat ch, l.find? (fun q => normalizeFixed q.2.name == p.1) = some (cat, ch) ∧
        p.2 = { ch with number := p.2.number, category := cat } ∧
        p.1 = normalizeFixed ch.name) := by
  intro l
  induction l with
  | nil => exact fun acc n p hp => .inl hp
  | cons hd rest ih =>
    intro acc n p hp
    obtain ⟨cat, ch⟩ := hd
    simp only [dedupCore] at hp
    split at hp
    next hcond =>
      rcases ih _ _ p hp with hin | ⟨hne, hacc, cat2, ch2, hfind, hp2, hp1⟩
      · rcases List.mem_append.1 hin with hin2 | hin2
        · exact .inl hin2
        · simp only [List.mem_singleton] at hin2
          subst hin2
          refine .inr ⟨hcond.1, hcond.2, cat, ch, ?_, ?_, rfl⟩
          · exact List.find?_cons_of_pos _ (by simp)
          · rfl
      · refine .inr ⟨hne, fun q hq => hacc q (List.mem_append.2 (.inl hq)), cat2, ch2, ?_, hp2, hp1⟩
        have hnorm : normalizeFixed ch.name ≠ p.1 := by
          have := hacc (normalizeFixed ch.name,
            { ch with number := n, category := cat }) (List.mem_append.2 (.inr (by simp)))
          simpa using this
        rw [List.find?_cons_of_neg _ (by simpa using hnorm)]
        exact hfind
    next hcond =>
      rcases ih _ _ p hp with hin | ⟨hne, hacc, cat2, ch2, hfind, hp2, hp1⟩
      · exact .inl hin
      · refine .inr ⟨hne, hacc, cat2, ch2, ?_, hp2, hp1⟩
        have hnorm : normalizeFixed ch.name ≠ p.1 := by
          intro heq
          apply hcond
          refine ⟨by rw [heq]; exact hne, ?_⟩
          intro q hq
          rw [heq]
          exact fun hq1 => (hacc q hq) hq1
        rw [List.find?_cons_of_neg _ (by simpa using hnorm)]
        exact hfind

/-- Every input entry with a non-empty key has a surviving representative
with the same key. -/
theorem dedupCore_covers : ∀ (l acc : List (Str × Entry)) (n : Nat) (q : Str × Entry),
    q ∈ l → normalizeFixed q.2.name ≠ [] →
    ∃ p ∈ dedupCore l acc n, p.1 = normalizeFixed q.2.name := by
  intro l
  induction l with
  | nil => intro acc n q hq; exact absurd hq (List.not_mem_nil q)
  | cons hd rest ih =>
    intro acc n q hq hqne
    obtain ⟨cat, ch⟩ := hd
    rcases List.mem_cons.1 hq with hq1 | hq1
    · subst hq1
      simp only [dedupCore]
      split
    
      next hcond =>
        refine ⟨(normalizeFixed ch.name, { ch with number := n, category := cat }), ?_, rfl⟩
        exact dedupCore_sub _ _ _ (List.mem_append.2 (.inr (by simp)))
      next hcond =>
        have : ∃ q2 ∈ acc, q2.1 = normalizeFixed ch.name := by
          by_contra hno
          push_neg at hno
          exact hcond ⟨hqne, fun r hr => hno r hr⟩
        obtain ⟨q2, hq2, hq2k⟩ := this
        exact ⟨q2, dedupCore_sub _ _ _ hq2, hq2k⟩
    · simp only [dedupCore]
      split
      · exact ih _ _ q hq1 hqne
      · exact ih _ _ q hq1 hqne

/-- Survivor numbers extend the accumulator's numbers by a consecutive run
starting at the current counter. -/
theorem dedupCore_numbers : ∀ (l acc : List (Str × Entry)) (n : Nat),
    ∃ k, (dedupCore l acc n).map (fun p => p.2.number) =
      acc.map (fun p => p.2.number) ++ List.range' n k := by
  intro l
  induction l with
  | nil => intro acc n; exact ⟨0, by simp [dedupCore]⟩
  | cons hd rest ih =>
    intro acc n
    obtain ⟨cat, ch⟩ := hd
    simp only [dedupCore]
    split
    · obtain ⟨k, hk⟩ := ih (acc ++ [(normalizeFixed ch.name, { ch with number := n, category := cat })]) (n + 1)
      refine ⟨k + 1, ?_⟩
      rw [hk, List.map_append, List.range'_succ]
      simp
    · exact ih acc n

/-- C8: global deduplication yields pairwise-distinct comparison keys, never
more survivors than inputs, keeps exactly the first input occurrence of each
key (in category-then-entry order, unchanged but for number and category),
covers every non-empty input key, and renumbers survivors 1..N in first-seen
order. -/
theorem c8_dedup_properties :
    ∀ bs : List (Str × List Entry),
      ((uniqueChannels bs).map Prod.fst).Nodup ∧
      (uniqueChannels bs).length ≤ (flattenB bs).length ∧
      (∀ p ∈ uniqueChannels bs, p.1 ≠ [] ∧
        ∃ cat ch, (flattenB bs).find? (fun q => normalizeFixed q.2.name == p.1) =
            some (cat, ch) ∧
          p.2 = { ch with number := p.2.number, category := cat } ∧
          p.1 = normalizeFixed ch.name) ∧
      (∀ q ∈ flattenB bs, normalizeFixed q.2.name ≠ [] →
        ∃ p ∈ uniqueChannels bs, p.1 = normalizeFixed q.2.name) ∧
      (uniqueChannels bs).map (fun p => p.2.number) =
        List.range' 1 (uniqueChannels bs).length := by
  intro bs
  refine ⟨?_, ?_, ?_, ?_, ?_⟩
  · exact dedupCore_keys_nodup (flattenB bs) [] 1 (by simp)
  · simpa using dedupCore_length (flattenB bs) [] 1
  · intro p hp
    rcases dedupCore_mem (flattenB bs) [] 1 p hp with hin | ⟨hne, _, cat, ch, hfind, hp2, hp1⟩
    · exact absurd hin (List.not_mem_nil p)
    · exact ⟨hne, cat, ch, hfind, hp2, hp1⟩
  · exact fun q hq hne => dedupCore_covers (flattenB bs) [] 1 q hq hne
  · obtain ⟨k, hk⟩ := dedupCore_numbers (flattenB bs) [] 1
    have hlen : (uniqueChannels bs).length = k := by
      have := congrArg List.length hk
      simpa [uniqueChannels] using this
    rw [hlen]
    simpa [uniqueChannels] using hk

/-- Witness for the deduplication theorem at the two-entry fixture: the
survivor (alfa, Alfa) is the first occurrence of its key, and the input
entry Al fa has a surviving representative for its key. -/
theorem c8_dedup_properties_witness :
    (c8SampleP.1 ≠ [] ∧
      ∃ cat ch, (flattenB c1Bouquets).find?
          (fun q => normalizeFixed q.2.name == c8SampleP.1) = some (cat, ch) ∧
        c8SampleP.2 = { ch with number := c8SampleP.2.number, category := cat } ∧
        c8SampleP.1 = normalizeFixed ch.name) ∧
    (∃ p ∈ uniqueChannels c1Bouquets,
      p.1 = normalizeFixed (Entry.name { name := str "Al fa", number := 2 })) :=
  ⟨(c8_dedup_properties c1Bouquets).2.2.1 c8SampleP (by decide),
    (c8_dedup_properties c1Bouquets).2.2.2.1
      (str "Bez kategorii", { name := str "Al fa", number := 2 }) (by decide) (by decide)⟩

/-- Case-insensitive literal matching preserves the lower-cased text. -/
theorem takeCI_lower : ∀ (a cs m r : Str), takeCI a cs = some (m, r) →
    m.map pyLower = a.map pyLower := by
  intro a
  induction a with
  | nil =>
    intro cs m r h
    simp only [takeCI, Option.some_inj, Prod.mk.injEq] at h
    rw [← h.1]
  | cons a as ih =>
    intro cs m r h
    cases cs with
    | nil => exact absurd h (by simp [takeCI])
    | cons c cs2 =>
      simp only [takeCI] at h
      split at h
      next heq =>
        split at h
        next m2 r2 heq2 =>
          simp only [Option.some_inj, Prod.mk.injEq] at h
          rw [← h.1]
          simp only [List.map_cons]
          rw [heq, ih cs2 m2 r2 heq2]
        next => exact Option.noConfusion h
      next => exact Option.noConfusion h

/-- A successful word-bounded alternation match is case-insensitively equal
to one of the alternatives. -/
theorem tokenAt_spec : ∀ (alts : List Str) (prev : Option Char) (cs m r : Str),
    tokenAt alts prev cs = some (m, r) →
    ∃ a ∈ alts, m.map pyLower = a.map pyLower := by
  intro alts
  induction alts with
  | nil => intro prev cs m r h; exact absurd h (by simp [tokenAt])
  | cons a rest ih =>
    intro prev cs m r h
    simp only [tokenAt] at h
    split at h
    next m2 r2 heq =>
      split at h
      · simp only [Option.some_inj, Prod.mk.injEq] at h
        refine ⟨a, List.mem_cons_self a rest, ?_⟩
        rw [← h.1]
        exact takeCI_lower a cs m2 r2 heq
      · obtain ⟨a2, ha2, hlow⟩ := ih prev cs m r h
        exact ⟨a2, List.mem_cons_of_mem a ha2, hlow⟩
    next =>
      obtain ⟨a2, ha2, hlow⟩ := ih prev cs m r h
      exact ⟨a2, List.mem_cons_of_mem a ha2, hlow⟩

/-- A successful regex search for a word-bounded alternation returns text
case-insensitively equal to one of the alternatives. -/
theorem searchTok_spec (alts : List Str) : ∀ (cs : Str) (prev : Option Char) (m : Str),
    searchM (fun p c => tokenAt alts p c) prev cs = some m →
    ∃ a ∈ alts, m.map pyLower = a.map pyLower := by
  intro cs
  induction cs with
  | nil => intro prev m h; exact absurd h (by simp [searchM])
  | cons c cs2 ih =>
    intro prev m h
    simp only [searchM] at h
    split at h
    next m2 r2 heq =>
      simp only [Option.some_inj] at h
      subst h
      exact tokenAt_spec alts prev (c :: cs2) m2 r2 heq
    next => exact ih (some c) m h

/-- Restoring a good-case token character: any character with the same
lower-case image upper-cases to the token character itself. -/
theorem goodTok_restore (t c : Char) (hg : goodTok t) (h : pyLower c = pyLower t) :
    pyUpper c = t := by
  rcases hf : caseTable.find? (fun p => p.1 == c) with _ | p
  · have hc : pyLower c = c := by unfold pyLower; rw [hf]
    rw [hc] at h
    rw [h]
    exact hg.2.1
  · have hc : pyLower c = p.2 := by unfold pyLower; rw [hf]
    have hp1 : p.1 = c := by
      have := List.find?_some hf
      simpa using this
    have hpmem : p ∈ caseTable := List.mem_of_find?_eq_some hf
    have hct : c = t := by
      rw [← hp1]
      exact hg.1 p hpmem (by rw [← hc, h])
    rw [hct]
    exact hg.2.2

/-- Restoring a whole good-case token: upper-casing a case-insensitive match
of the token gives back the token. -/
theorem goodTok_restore_str : ∀ (a m : Str), (∀ t ∈ a, goodTok t) →
    m.map pyLower = a.map pyLower → m.map pyUpper = a := by
  intro a
  induction a with
  | nil =>
    intro m _ h
    simp only [List.map_nil, List.map_eq_nil_iff] at h
    rw [h]
    rfl
  | cons t ts ih =>
    intro m hg h
    cases m with
    | nil => exact absurd h (by simp)
    | cons c ms =>
      simp only [List.map_cons, List.cons.injEq] at h
      simp only [List.map_cons]
      rw [goodTok_restore t c (hg t (List.mem_cons_self t ts)) h.1,
        ih ms (fun x hx => hg x (List.mem_cons_of_mem t hx)) h.2]

/-- All characters of the quality tokens are good-case tokens. -/
theorem qualTokens_good : ∀ a ∈ qualTokens, ∀ t ∈ a, goodTok t := by
  decide

/-- The stored quality field — the upper-cased text of a successful quality
search, or empty — is empty or one of the five canonical tokens. -/
theorem quality_field_mem (text : Str) :
    ((searchM (fun p cs => tokenAt qualTokens p cs) none text).map
        (fun m => m.map pyUpper)).getD [] = [] ∨
      ((searchM (fun p cs => tokenAt qualTokens p cs) none text).map
        (fun m => m.map pyUpper)).getD [] ∈ qualTokens := by
  rcases hs : searchM (fun p cs => tokenAt qualTokens p cs) none text with _ | m
  · simp
  · right
    obtain ⟨a, ha, hlow⟩ := searchTok_spec qualTokens text none m hs
    have hrest := goodTok_restore_str a m (qualTokens_good a ha) hlow
    simpa [hrest] using ha

/-- C10: both parse_channel_info variants strip the leading ordinal and
return no record exactly when fewer than two characters remain; any returned
record's quality field is empty or one of the canonical upper-case tokens
HD, SD, UHD, 4K, UD, whatever the casing of the input. -/
theorem c10_parse_contract :
    ∀ (t ft : Str),
      (parseChannelInfoLst t ft = none ↔ (stripOrdinal t).length < 2) ∧
      (parseChannelInfoFixed t = none ↔ (stripOrdinal t).length < 2) ∧
      (∀ e : Entry, parseChannelInfoLst t ft = some e →
        e.quality = [] ∨ e.quality ∈ qualTokens) ∧
      (∀ e : Entry, parseChannelInfoFixed t = some e →
        e.quality = [] ∨ e.quality ∈ qualTokens) := by
  intro t ft
  refine ⟨?_, ?_, ?_, ?_⟩
  · simp only [parseChannelInfoLst]
    split
    next hcond =>
      simp only [Bool.or_eq_true, decide_eq_true_eq] at hcond
      constructor
      · intro _
        rcases hcond with h1 | h1
        · rw [h1]; simp
        · exact h1
      · intro _; rfl
    next hcond =>
      simp only [Bool.or_eq_true, decide_eq_true_eq] at hcond
      push_neg at hcond
      constructor
      · intro hx; exact Option.noConfusion hx
      · intro hlen; exact absurd hlen (Nat.not_lt.2 hcond.2)
  · simp only [parseChannelInfoFixed]
    split
    next hcond =>
      simp only [Bool.or_eq_true, decide_eq_true_eq] at hcond
      constructor
      · intro _
        rcases hcond with h1 | h1
        · rw [h1]; simp
        · exact h1
      · intro _; rfl
    next hcond =>
      simp only [Bool.or_eq_true, decide_eq_true_eq] at hcond
      push_neg at hcond
      constructor
      · intro hx; exact Option.noConfusion hx
      · intro hlen; exact absurd hlen (Nat.not_lt.2 hcond.2)
  · intro e he
    simp only [parseChannelInfoLst] at he
    split at he
    · exact Option.noConfusion he
    · simp only [Option.some_inj] at he
      subst he
      exact quality_field_mem (stripOrdinal t)
  · intro e he
    simp only [parseChannelInfoFixed] at he
    split at he
    · exact Option.noConfusion he
    · simp only [Option.some_inj] at he
      subst he
      exact quality_field_mem (stripOrdinal t)

/-- Witness for the parse contract: the sample row parses to the sample
entry whose quality HD is among the canonical tokens, and a bare ordinal
yields no record. -/
theorem c10_parse_contract_witness :
    parseChannelInfoLst (str "1. Alfa hd") [] = some c10SampleEntry ∧
    (c10SampleEntry.quality = [] ∨ c10SampleEntry.quality ∈ qualTokens) ∧
    parseChannelInfoLst (str "7.") [] = none :=
  ⟨rfl, (c10_parse_contract (str "1. Alfa hd") []).2.2.1 c10SampleEntry rfl,
    (c10_parse_contract (str "7.") []).1.2 (by decide)⟩

/-- Consumed-service targets distribute over action-list append. -/
theorem serviceTargets_append (l1 l2 : List ImportAction) :
    serviceTargets (l1 ++ l2) = serviceTargets l1 ++ serviceTargets l2 :=
  List.filterMap_append l1 l2 serviceTarget

/-- A tag creation consumes no service. -/
theorem serviceTargets_createTag (n u : Str) (i : Nat) :
    serviceTargets [ImportAction.createTag n u i] = [] := rfl

/-- A channel creation consumes its service. -/
theorem serviceTargets_create (s n : Str) (tg : List Str) (k : Nat) :
    serviceTargets [ImportAction.createChannel s n tg k] = [s] := rfl

/-- A channel update consumes its matched service. -/
theorem serviceTargets_update (s ch : Str) (tg : List Str) (k : Nat) (n : Str) :
    serviceTargets [ImportAction.updateChannel s ch tg k n] = [s] := rfl

/-- Tag resolution adds no create/update action and keeps the invariant. -/
theorem consumedOnce_resolveTag (ct : Bool) (mk : Str → Nat → Str) (st : RunState)
    (cat : Str) (h : consumedOnce st) : consumedOnce (resolveTag ct mk st cat).2 := by
  unfold resolveTag
  split
  · split
    · exact h
    · constructor
      · rw [serviceTargets_append, serviceTargets_createTag, List.append_nil]
        exact h.1
      · intro u hu
        rw [serviceTargets_append, serviceTargets_createTag, List.append_nil] at hu
        exact h.2 u hu
  · exact h

/-- Appending a fresh consumed target and recording it preserves both parts
of the invariant. -/
theorem consumedOnce_push (acts : List ImportAction) (procs : List Str) (u : Str)
    (hn : (serviceTargets acts).Nodup) (hmem : ∀ v ∈ serviceTargets acts, v ∈ procs)
    (hfresh : u ∉ serviceTargets acts) :
    (serviceTargets acts ++ [u]).Nodup ∧
      ∀ v ∈ serviceTargets acts ++ [u], v ∈ procs ++ [u] := by
  constructor
  · rw [List.nodup_append]
    refine ⟨hn, List.nodup_singleton _, fun a ha hb => ?_⟩
    simp only [List.mem_singleton] at hb
    subst hb
    exact hfresh ha
  · intro v hv
    rcases List.mem_append.1 hv with hv1 | hv1
    · exact List.mem_append.2 (.inl (hmem v hv1))
    · exact List.mem_append.2 (.inr hv1)

/-- The per-entry step of the tvhlst run preserves the consumption
invariant: an action for a service is only emitted in the branch that also
records the service as processed, and already-processed services are
skipped. -/
theorem consumedOnce_entryStepLst (cfg : LstCfg) (smap : List ((Str × ℤ) × Service))
    (cbs : List (Str × Nat)) (tagUuid : Option Str) (st : RunState) (e : Entry)
    (h : consumedOnce st) : consumedOnce (entryStepLst cfg smap cbs tagUuid st e) := by
  simp only [entryStepLst]
  by_cases hk : normalizeLst e.name = []
  · rw [if_pos hk]; exact h
  · rw [if_neg hk]
    rcases hsv : alookupK smap (normalizeLst e.name, getFreqMhzFromStr e.frequency) with _ | svc
    · exact h
    · simp only
      by_cases hc : svc.uuid ∈ st.processedServices
      · rw [if_pos hc]; exact h
      · rw [if_neg hc]
        have hfresh : svc.uuid ∉ serviceTargets st.actions := fun hmem => hc (h.2 svc.uuid hmem)
        rcases hcb : alookupK cbs svc.uuid with _ | idx
        · simp only
          have hp := consumedOnce_push st.actions st.processedServices svc.uuid h.1 h.2 hfresh
          constructor
          · rw [serviceTargets_append, serviceTargets_create]
            exact hp.1
          · intro u hu
            rw [serviceTargets_append, serviceTargets_create] at hu
            exact hp.2 u hu
        · simp only
          rcases hch : st.store[idx]? with _ | ch
          · simp only
            exact ⟨h.1, fun u hu => List.mem_append.2 (.inl (h.2 u hu))⟩
          · simp only
            have hp := consumedOnce_push st.actions st.processedServices svc.uuid h.1 h.2 hfresh
            constructor
            · rw [serviceTargets_append, serviceTargets_update]
              exact hp.1
            · intro u hu
              rw [serviceTargets_append, serviceTargets_update] at hu
              exact hp.2 u hu

/-- Folding the entry step over a category preserves the consumption
invariant. -/
theorem consumedOnce_entriesFold (cfg : LstCfg) (smap : List ((Str × ℤ) × Service))
    (cbs : List (Str × Nat)) (tagUuid : Option Str) (es : List Entry) :
    ∀ st : RunState, consumedOnce st →
      consumedOnce (es.foldl (entryStepLst cfg smap cbs tagUuid) st) := by
  induction es with
  | nil => exact fun st h => h
  | cons e es ih =>
    intro st h
    rw [List.foldl_cons]
    exact ih _ (consumedOnce_entryStepLst cfg smap cbs tagUuid st e h)

/-- The exact-key run of tvhlst.py does satisfy the consumption invariant
broken by the fuzzy variant: no service uuid is the target of two
create/update actions. -/
theorem runLst_consumption_nodup (cfg : LstCfg) (bouquets : List (Str × List Entry))
    (services : List Service) (muxes : List (Str × Nat)) (channels : List Channel)
    (tags0 : List TagRec) :
    (serviceTargets (runLst cfg bouquets services muxes channels tags0).actions).Nodup := by
  simp only [runLst]
  have hstep : ∀ (bs : List (Str × List Entry)) (st : RunState), consumedOnce st →
      consumedOnce (bs.foldl
        (fun st p =>
          p.2.foldl
            (entryStepLst cfg (servicesMapLst muxes services) (channelsByService channels)
              (resolveTag cfg.createTags cfg.mkTagUuid st p.1).1)
            (resolveTag cfg.createTags cfg.mkTagUuid st p.1).2) st) := by
    intro bs
    induction bs with
    | nil => exact fun st h => h
    | cons p ps ih =>
      intro st h
      rw [List.foldl_cons]
      exact ih _ (consumedOnce_entriesFold cfg _ _ _ p.2 _
        (consumedOnce_resolveTag cfg.createTags cfg.mkTagUuid st p.1 h))
  exact (hstep bouquets _ ⟨by simp [serviceTargets], by simp [serviceTargets]⟩).1
